import Mathlib

set_option maxRecDepth 4000

/-!
Shallow embedding of the traceon structured-logging core (`src/traceon.rs`):
the key-casing transforms (`snake` / `pascal` / `camel`), the per-span field
storage (`JsonStorage`) with its visitor protocol (`record_i64` ... `record_debug`),
span context propagation (`on_new_span` / `on_record`), and the event record
assembler (`Traceon::serialize` / `on_event`).
-/

namespace TraceonModel

/-- Rust `char::is_uppercase`, modelled on the ASCII range (`'A'..='Z'`).
The source uses the Unicode predicate; every string exercised by the claims is
ASCII, where the two agree. -/
def is_uppercase (c : Char) : Bool := decide ('A' ≤ c ∧ c ≤ 'Z')

/-- Rust `char::is_lowercase`, modelled on the ASCII range (`'a'..='z'`). -/
def is_lowercase (c : Char) : Bool := decide ('a' ≤ c ∧ c ≤ 'z')

/-- Rust `char::to_ascii_lowercase`: shifts `'A'..='Z'` down into `'a'..='z'`,
leaves every other character unchanged. -/
def to_ascii_lowercase (c : Char) : Char :=
  if 'A' ≤ c ∧ c ≤ 'Z' then Char.ofNat (c.toNat + 32) else c

/-- Rust `char::to_ascii_uppercase`: shifts `'a'..='z'` up into `'A'..='Z'`,
leaves every other character unchanged. -/
def to_ascii_uppercase (c : Char) : Char :=
  if 'a' ≤ c ∧ c ≤ 'z' then Char.ofNat (c.toNat - 32) else c

/-- Rust `str::to_ascii_lowercase`, characterwise. -/
def str_to_ascii_lowercase (s : String) : String := ⟨s.data.map to_ascii_lowercase⟩

/-- The loop body of `snake` (src/traceon.rs:692-703): for each indexed char,
push `'_'` when the char is uppercase, is not at index 0 and the previous char
was neither uppercase nor `'_'`; then push the ASCII-lowercased char. -/
def snake_go : List Char → Nat → Bool → List Char
  | [], _, _ => []
  | c :: rest, i, upper_or_underscore_last =>
    (if 0 < i ∧ is_uppercase c = true ∧ upper_or_underscore_last = false then ['_'] else []) ++
      (to_ascii_lowercase c ::
        snake_go rest (i + 1) (is_uppercase c || c == '_'))

/-- `snake` (src/traceon.rs:692-703). -/
def snake (key : String) : String := ⟨snake_go key.data 0 false⟩

/-- The loop body of `pascal` (src/traceon.rs:705-728), threading the
`capitalize` and `upper_last` flags exactly as the source does. -/
def pascal_go : List Char → Bool → Bool → List Char
  | [], _, _ => []
  | c :: rest, capitalize, upper_last =>
    let upper_last := if is_lowercase c then false else upper_last
    if c = '_' then pascal_go rest true false
    else if upper_last then to_ascii_lowercase c :: pascal_go rest capitalize upper_last
    else if capitalize then to_ascii_uppercase c :: pascal_go rest false true
    else c :: pascal_go rest capitalize false

/-- `pascal` (src/traceon.rs:705-728). -/
def pascal (key : String) : String := ⟨pascal_go key.data true false⟩

/-- `camel` (src/traceon.rs:730-733): `pascal[..1].to_ascii_lowercase() + &pascal[1..]`.
The byte slice `[..1]` panics when the pascal string is empty (range out of
bounds) or when its first character occupies more than one UTF-8 byte (slice
not on a char boundary); a panic is modelled as `Option.none`. A first
character of one UTF-8 byte is exactly a code point below 128. -/
def camel (key : String) : Option String :=
  match pascal_go key.data true false with
  | [] => Option.none
  | c :: rest =>
    if c.toNat < 128 then Option.some ⟨to_ascii_lowercase c :: rest⟩ else Option.none

/-- `serde_json::Value` as the storage produces it: `Value::from` applied to
`i64` / `u64` / `f64` / `bool` / `&str` / a `format!("{:?}", _)` string.
The `f64` payload is carried as its bit pattern and used only up to identity
(no claim computes with float values). -/
inductive JsonValue where
  | str (s : String)
  | numInt (n : Int)
  | numUInt (n : Nat)
  | numFloat (bits : Nat)
  | bool (b : Bool)
  | null
deriving DecidableEq

/-- `serde_json::Value::as_str`: `Some` exactly on strings. -/
def JsonValue.as_str : JsonValue → Option String
  | JsonValue.str s => Option.some s
  | _ => Option.none

/-- Rust `HashMap::insert` on the storage map, modelled on an association
list (the source's `HashMap` iteration order is arbitrary; no claim depends on
the order inside one map). Returns the updated map together with the previous
value under the key, exactly as the source's `insert` does. -/
def hashmap_insert : List (String × JsonValue) → String → JsonValue →
    List (String × JsonValue) × Option JsonValue
  | [], k, v => ([(k, v)], Option.none)
  | (k', v') :: rest, k, v =>
    if k' = k then ((k, v) :: rest, Option.some v')
    else
      let r := hashmap_insert rest k v
      ((k', v') :: r.1, r.2)

/-- Rust `HashMap::get` on the association-list model. -/
def hashmap_get : List (String × JsonValue) → String → Option JsonValue
  | [], _ => Option.none
  | (k', v') :: rest, k => if k' = k then Option.some v' else hashmap_get rest k

/-- `Case` (src/traceon.rs:42-51). -/
inductive Case where
  | none
  | camel
  | pascal
  | snake
deriving DecidableEq

/-- `LevelFormat` (src/traceon.rs:55-69). -/
inductive LevelFormat where
  | none
  | uppercase
  | lowercase
  | number
deriving DecidableEq

/-- `SpanFormat` (src/traceon.rs:73-80). -/
inductive SpanFormat where
  | none
  | join (sep : String)
  | overwrite
deriving DecidableEq

/-- `JoinFields` (src/traceon.rs:90-98). The source's `JoinFields::Some`
constructor is rendered `someOf` (Lean reserves the bare name for `Option`). -/
inductive JoinFields where
  | overwrite
  | all (chars : String)
  | someOf (chars : String) (fields : List String)
deriving DecidableEq

/-- `TimeFormat` (src/traceon.rs:102-125), modelled only as far as the
serializer inspects it: the record assembler checks `self.time != TimeFormat::None`
and otherwise hands the chosen format to `time_convert`, which formats an
external clock reading (chrono). All non-`None` variants are collapsed into
`other`, and the formatted timestamp string enters `serialize` as an input. -/
inductive TimeFormat where
  | none
  | other
deriving DecidableEq

/-- `tracing::Level` as the serializer consumes it. -/
inductive Level where
  | trace
  | debug
  | info
  | warn
  | error
deriving DecidableEq

/-- `Display` of `tracing::Level` (uppercase). -/
def Level.display : Level → String
  | Level.trace => "TRACE"
  | Level.debug => "DEBUG"
  | Level.info => "INFO"
  | Level.warn => "WARN"
  | Level.error => "ERROR"

/-- The numeric level mapping of `Traceon::serialize` (src/traceon.rs:462-469). -/
def Level.number : Level → Int
  | Level.trace => 10
  | Level.debug => 20
  | Level.info => 30
  | Level.warn => 40
  | Level.error => 50

/-- `JsonStorage` (src/traceon.rs:675-680): the per-span field map plus the
merge policies copied in at creation time. -/
structure JsonStorage where
  values : List (String × JsonValue)
  join_fields : JoinFields
  span_format : SpanFormat
deriving DecidableEq

/-- `JsonStorage::new` (src/traceon.rs:682-690). -/
def JsonStorage.new (jf : JoinFields) (sf : SpanFormat) : JsonStorage :=
  ⟨[], jf, sf⟩

/-- The `#[derive(Default)]` storage: empty map, `JoinFields::Overwrite`
(the `#[default]` variant), `SpanFormat::Join("::")` (its `Default` impl). -/
def JsonStorage.defaultStorage : JsonStorage :=
  ⟨[], JoinFields.overwrite, SpanFormat.join "::"⟩

/-- `Visit::record_i64` for `JsonStorage` (src/traceon.rs:736-739). -/
def record_i64 (st : JsonStorage) (name : String) (value : Int) : JsonStorage :=
  { st with values := (hashmap_insert st.values name (JsonValue.numInt value)).1 }

/-- `Visit::record_u64` (src/traceon.rs:740-743). -/
def record_u64 (st : JsonStorage) (name : String) (value : Nat) : JsonStorage :=
  { st with values := (hashmap_insert st.values name (JsonValue.numUInt value)).1 }

/-- `Visit::record_f64` (src/traceon.rs:744-747); the float is carried as bits. -/
def record_f64 (st : JsonStorage) (name : String) (bits : Nat) : JsonStorage :=
  { st with values := (hashmap_insert st.values name (JsonValue.numFloat bits)).1 }

/-- `Visit::record_bool` (src/traceon.rs:748-751). -/
def record_bool (st : JsonStorage) (name : String) (value : Bool) : JsonStorage :=
  { st with values := (hashmap_insert st.values name (JsonValue.bool value)).1 }

/-- `Visit::record_str` (src/traceon.rs:752-784): insert the new string; when
a previous value existed, a field whose ASCII-lowercased name is `"span"` is
resolved by the span-format policy, every other field by the per-field join
policy, with the previous value read back through `as_str().unwrap_or("")`. -/
def record_str (st : JsonStorage) (name : String) (value : String) : JsonStorage :=
  match hashmap_insert st.values name (JsonValue.str value) with
  | (m, Option.none) => { st with values := m }
  | (m, Option.some orig) =>
    if str_to_ascii_lowercase name = "span" then
      match st.span_format with
      | SpanFormat.join chars =>
        { st with values :=
            (hashmap_insert m name
              (JsonValue.str ((orig.as_str.getD "") ++ chars ++ value))).1 }
      | _ => { st with values := m }
    else
      match st.join_fields with
      | JoinFields.overwrite => { st with values := m }
      | JoinFields.all chars =>
        { st with values :=
            (hashmap_insert m name
              (JsonValue.str ((orig.as_str.getD "") ++ chars ++ value))).1 }
      | JoinFields.someOf chars fields =>
        if name ∈ fields then
          { st with values :=
              (hashmap_insert m name
                (JsonValue.str ((orig.as_str.getD "") ++ chars ++ value))).1 }
        else { st with values := m }

/-- Rust `str::starts_with`, characterwise. The markers tested by the source
(`"log."`, `"r#"`) are ASCII, where byte prefixes and character prefixes of
UTF-8 text coincide. -/
def chars_start_with : List Char → List Char → Bool
  | _, [] => true
  | [], _ :: _ => false
  | c :: s, p :: ps => c == p && chars_start_with s ps

/-- See `chars_start_with`. -/
def starts_with (s pre : String) : Bool := chars_start_with s.data pre.data

/-- `Visit::record_debug` (src/traceon.rs:786-799): drop names starting with
`"log."`, strip a leading `"r#"`, store the debug-formatted string otherwise.
The `format!("{:?}", value)` text enters as the `txt` argument. -/
def record_debug (st : JsonStorage) (name : String) (txt : String) : JsonStorage :=
  if starts_with name "log." then st
  else if starts_with name "r#" then
    { st with values := (hashmap_insert st.values ⟨name.data.drop 2⟩ (JsonValue.str txt)).1 }
  else
    { st with values := (hashmap_insert st.values name (JsonValue.str txt)).1 }

/-- One typed field visitation, dispatching to the `Visit` method the tracing
runtime would call for that value shape. -/
inductive FieldInput where
  | i64 (name : String) (value : Int)
  | u64 (name : String) (value : Nat)
  | f64 (name : String) (bits : Nat)
  | bool (name : String) (value : Bool)
  | str (name : String) (value : String)
  | debug (name : String) (txt : String)
deriving DecidableEq

/-- Dispatch of one visitation to the matching `record_*` method. -/
def record_field (st : JsonStorage) : FieldInput → JsonStorage
  | FieldInput.i64 n v => record_i64 st n v
  | FieldInput.u64 n v => record_u64 st n v
  | FieldInput.f64 n v => record_f64 st n v
  | FieldInput.bool n v => record_bool st n v
  | FieldInput.str n v => record_str st n v
  | FieldInput.debug n t => record_debug st n t

/-- `attrs.record(&mut visitor)` / `values.record(visitor)`: visit a list of
typed fields in order against one storage. -/
def record_fields (st : JsonStorage) (fs : List FieldInput) : JsonStorage :=
  fs.foldl record_field st

/-- The configuration slice of `struct Traceon` (src/traceon.rs:26-38) that
the storage and serialization logic reads (the writer handle and the chrono
clock live outside the embedding). Field names follow the source. -/
structure Traceon where
  json : Bool
  file : Bool
  module : Bool
  span_format : SpanFormat
  case : Case
  time : TimeFormat
  join_fields : JoinFields
  level : LevelFormat
  message_key : String
deriving DecidableEq

/-- The `span_key` computed at the top of `on_new_span` (src/traceon.rs:613-616). -/
def span_key_for (c : Case) : String :=
  match c with
  | Case.pascal => "Span"
  | _ => "span"

/-- `Traceon::on_new_span` (src/traceon.rs:611-662) at the storage level.
`parentStorage` is the parent span's storage when the span has a parent
(`extensions.get_mut::<JsonStorage>().map(to_owned).unwrap_or_default()` makes
a parent without storage behave as `Option.some JsonStorage.defaultStorage`);
`Option.none` means the span has no parent. The clone of the parent's storage
is the snapshot the child keeps; `attrs` are the span's own declared fields,
visited last. -/
def on_new_span (cfg : Traceon) (parentStorage : Option JsonStorage)
    (name : String) (attrs : List FieldInput) : JsonStorage :=
  let visitor :=
    match parentStorage with
    | Option.some ps =>
      if cfg.span_format ≠ SpanFormat.none then
        match hashmap_insert ps.values (span_key_for cfg.case) (JsonValue.str name) with
        | (m, Option.none) => { ps with values := m }
        | (m, Option.some orig) =>
          match cfg.span_format with
          | SpanFormat.overwrite => { ps with values := m }
          | SpanFormat.join concat =>
            { ps with values :=
                (hashmap_insert m (span_key_for cfg.case)
                  (JsonValue.str ((orig.as_str.getD "") ++ concat ++ name))).1 }
          | SpanFormat.none => { ps with values := m }
      else ps
    | Option.none =>
      let storage := JsonStorage.new cfg.join_fields cfg.span_format
      if cfg.span_format ≠ SpanFormat.none then
        { storage with values :=
            (hashmap_insert storage.values (span_key_for cfg.case) (JsonValue.str name)).1 }
      else storage
  record_fields visitor attrs

/-- The registry's per-span extension slots: span id to attached `JsonStorage`.
The host registry owns span ids and parent links; the layer only reads and
writes these slots. -/
def store_get : List (Nat × JsonStorage) → Nat → Option JsonStorage
  | [], _ => Option.none
  | (i, s) :: rest, id => if i = id then Option.some s else store_get rest id

/-- `extensions.insert(visitor)`: attach a storage to a span's slot. -/
def store_insert : List (Nat × JsonStorage) → Nat → JsonStorage → List (Nat × JsonStorage)
  | [], id, st => [(id, st)]
  | (i, s) :: rest, id, st =>
    if i = id then (id, st) :: rest else (i, s) :: store_insert rest id st

/-- `Layer::on_new_span` over the slot table: look up the parent's storage
(missing storage on an existing parent degrades to the default storage, as in
the source's `unwrap_or_default`), build the child's storage, attach it. -/
def state_new_span (cfg : Traceon) (σ : List (Nat × JsonStorage)) (id : Nat)
    (parent : Option Nat) (name : String) (attrs : List FieldInput) :
    List (Nat × JsonStorage) :=
  let parentStorage :=
    match parent with
    | Option.none => Option.none
    | Option.some pid => Option.some ((store_get σ pid).getD JsonStorage.defaultStorage)
  store_insert σ id (on_new_span cfg parentStorage name attrs)

/-- `Layer::on_record` (src/traceon.rs:664-671): visit the new values against
the span's own attached storage. The source panics when the slot is empty (a
programming-invariant violation); the model leaves the table unchanged there,
and every claim exercises only the populated case. -/
def state_record (σ : List (Nat × JsonStorage)) (id : Nat)
    (vals : List FieldInput) : List (Nat × JsonStorage) :=
  σ.map fun p => if p.1 = id then (p.1, record_fields p.2 vals) else p

/-- Failure modes of one `serialize` run: `serde` is a `serde_json` error
surfaced through the `?` operator (the `Err` arm of `on_event`); `panicked`
is a Rust panic escaping `serialize` (only the `camel` byte slice can raise
one), which `on_event` does not catch. -/
inductive SerFailure where
  | serde
  | panicked
deriving DecidableEq

/-- The `serde_json` map serializer is an external collaborator writing into a
local buffer; it is modelled by the entry sequence it received plus a
fault-injection fuel: `Option.none` never fails, `Option.some n` fails at the
n-th subsequent write, standing for an arbitrary serializer error. -/
structure MapSer where
  fuel : Option Nat
  entries : List (String × JsonValue)
deriving DecidableEq

/-- `map_serializer.serialize_entry(key, value)?`. -/
def map_ser_entry (ms : MapSer) (k : String) (v : JsonValue) : Except SerFailure MapSer :=
  match ms.fuel with
  | Option.none => Except.ok ⟨Option.none, ms.entries ++ [(k, v)]⟩
  | Option.some 0 => Except.error SerFailure.serde
  | Option.some (n + 1) => Except.ok ⟨Option.some n, ms.entries ++ [(k, v)]⟩

/-- `map_serializer.end()?` (src/traceon.rs:584). -/
def map_ser_end (ms : MapSer) : Except SerFailure (List (String × JsonValue)) :=
  match ms.fuel with
  | Option.some 0 => Except.error SerFailure.serde
  | _ => Except.ok ms.entries

/-- The per-key casing dispatch in `serialize` (src/traceon.rs:533-538 and
552-557); a `camel` panic propagates as `SerFailure.panicked`. -/
def cased_key (c : Case) (k : String) : Except SerFailure String :=
  match c with
  | Case.snake => Except.ok (snake k)
  | Case.pascal => Except.ok (pascal k)
  | Case.camel =>
    match camel k with
    | Option.some s => Except.ok s
    | Option.none => Except.error SerFailure.panicked
  | Case.none => Except.ok k

/-- The event metadata `serialize` reads: level, module path, file and line. -/
structure EventMeta where
  level : Level
  module_path : Option String
  file_path : Option String
  line : Option Nat
deriving DecidableEq

/-- The key substitution at the top of the event-field loop
(src/traceon.rs:530-532): only in JSON mode, and only in the event loop, the
`"message"` key is replaced by the configured message key. -/
def subst_key (cfg : Traceon) (subst : Bool) (k : String) : String :=
  if cfg.json = true ∧ subst = true ∧ k = "message" then cfg.message_key else k

/-- The shared shape of the two field loops of `serialize`
(src/traceon.rs:528-545 event fields with `subst := true`, 548-566 span fields
with `subst := false`): case each key, then either write a JSON map entry or
push a pretty `(key, value)` line when the cased key is not `"message"`.
Pretty values are recorded before `clean_json_value` (a display-string
transformation no claim references). -/
def ser_fields_loop (cfg : Traceon) (subst : Bool) :
    List (String × JsonValue) → MapSer → List (String × JsonValue) →
    Except SerFailure (MapSer × List (String × JsonValue))
  | [], ms, pf => Except.ok (ms, pf)
  | (k, v) :: rest, ms, pf =>
    match cased_key cfg.case (subst_key cfg subst k) with
    | Except.error e => Except.error e
    | Except.ok key =>
      if cfg.json = true then
        match map_ser_entry ms key v with
        | Except.error e => Except.error e
        | Except.ok ms' => ser_fields_loop cfg subst rest ms' pf
      else if str_to_ascii_lowercase key ≠ "message" then
        ser_fields_loop cfg subst rest ms (pf ++ [(key, v)])
      else ser_fields_loop cfg subst rest ms pf

/-- The structural keys chosen by case (src/traceon.rs:416-419). -/
def level_key_for (c : Case) : String :=
  match c with
  | Case.pascal => "Level"
  | _ => "level"

/-- See `level_key_for`. -/
def file_key_for (c : Case) : String :=
  match c with
  | Case.pascal => "File"
  | _ => "file"

/-- See `level_key_for`. -/
def module_key_for (c : Case) : String :=
  match c with
  | Case.pascal => "Module"
  | _ => "module"

/-- See `level_key_for`. -/
def time_key_for (c : Case) : String :=
  match c with
  | Case.pascal => "Time"
  | _ => "time"

/-- The timestamp block of `serialize` (src/traceon.rs:423-439): when the time
format is not `None`, JSON mode writes the formatted time string as a map
entry (pretty mode writes it into the message header, which carries no field). -/
def ser_time (cfg : Traceon) (ts : String) (ms : MapSer) : Except SerFailure MapSer :=
  if cfg.time ≠ TimeFormat.none then
    if cfg.json = true then map_ser_entry ms (time_key_for cfg.case) (JsonValue.str ts)
    else Except.ok ms
  else Except.ok ms

/-- The level block of `serialize` (src/traceon.rs:440-478), JSON-mode entries
(pretty mode writes the level into the message header). -/
def ser_level (cfg : Traceon) (lvl : Level) (ms : MapSer) : Except SerFailure MapSer :=
  match cfg.level with
  | LevelFormat.uppercase =>
    if cfg.json = true then map_ser_entry ms (level_key_for cfg.case) (JsonValue.str lvl.display)
    else Except.ok ms
  | LevelFormat.lowercase =>
    if cfg.json = true then
      map_ser_entry ms (level_key_for cfg.case) (JsonValue.str (str_to_ascii_lowercase lvl.display))
    else Except.ok ms
  | LevelFormat.number =>
    if cfg.json = true then map_ser_entry ms (level_key_for cfg.case) (JsonValue.numInt lvl.number)
    else Except.ok ms
  | LevelFormat.none => Except.ok ms

/-- The module block of `serialize` (src/traceon.rs:502-512). -/
def ser_module (cfg : Traceon) (meta : EventMeta)
    (mspf : MapSer × List (String × JsonValue)) :
    Except SerFailure (MapSer × List (String × JsonValue)) :=
  if cfg.module = true then
    if cfg.json = true then
      match map_ser_entry mspf.1 (module_key_for cfg.case)
          (JsonValue.str (meta.module_path.getD "")) with
      | Except.error e => Except.error e
      | Except.ok ms' => Except.ok (ms', mspf.2)
    else
      Except.ok (mspf.1,
        mspf.2 ++ [(module_key_for cfg.case, JsonValue.str (meta.module_path.getD ""))])
  else Except.ok mspf

/-- `format!("{}:{}", file, line)` with the source's `unwrap_or_default()`s. -/
def file_line_value (meta : EventMeta) : String :=
  meta.file_path.getD "" ++ ":" ++ toString (meta.line.getD 0)

/-- The file block of `serialize` (src/traceon.rs:514-526). -/
def ser_file (cfg : Traceon) (meta : EventMeta)
    (mspf : MapSer × List (String × JsonValue)) :
    Except SerFailure (MapSer × List (String × JsonValue)) :=
  if cfg.file = true then
    if cfg.json = true then
      match map_ser_entry mspf.1 (file_key_for cfg.case) (JsonValue.str (file_line_value meta)) with
      | Except.error e => Except.error e
      | Except.ok ms' => Except.ok (ms', mspf.2)
    else
      Except.ok (mspf.1, mspf.2 ++ [(file_key_for cfg.case, JsonValue.str (file_line_value meta))])
  else Except.ok mspf

/-- The head of `serialize` before the two field loops: timestamp, level,
module, file. -/
def ser_header (cfg : Traceon) (fuel : Option Nat) (ts : String) (meta : EventMeta) :
    Except SerFailure (MapSer × List (String × JsonValue)) :=
  (ser_time cfg ts ⟨fuel, []⟩).bind fun ms1 =>
    (ser_level cfg meta.level ms1).bind fun ms2 =>
      (ser_module cfg meta (ms2, [])).bind fun mspf =>
        ser_file cfg meta mspf

/-- The result of one `serialize` run: the JSON map entries in write order,
and the pretty `fields` vector in push order (the source then sorts and
column-aligns it for display; the colored message header line carries no
field). -/
structure SerializeOut where
  jsonEntries : List (String × JsonValue)
  prettyFields : List (String × JsonValue)
deriving DecidableEq

/-- `Traceon::serialize` (src/traceon.rs:401-590): record the event's fields
into the fresh visitor, write header entries, then the event-field loop, then
the span-field loop over the active span's storage, then `end()`. Every
fallible step aborts the whole run through `?`; all buffers are local, so an
aborted run yields no output at all. -/
def serialize (cfg : Traceon) (fuel : Option Nat) (ts : String) (meta : EventMeta)
    (event_fields : List FieldInput) (current_span : Option JsonStorage) :
    Except SerFailure SerializeOut :=
  let event_visitor := record_fields (JsonStorage.new cfg.join_fields cfg.span_format) event_fields
  (ser_header cfg fuel ts meta).bind fun mspf =>
    (ser_fields_loop cfg true event_visitor.values mspf.1 mspf.2).bind fun mspf2 =>
      (match current_span with
       | Option.some sp => ser_fields_loop cfg false sp.values mspf2.1 mspf2.2
       | Option.none => Except.ok mspf2).bind fun mspf3 =>
        (map_ser_end mspf3.1).map fun entries => ⟨entries, mspf3.2⟩

/-- One event as `Layer::on_event` receives it, with the fault-injection fuel
of its serializer run and the formatted clock reading. -/
structure EventInput where
  fuel : Option Nat
  ts : String
  meta : EventMeta
  fields : List FieldInput
  current_span : Option JsonStorage
deriving DecidableEq

/-- `Layer::on_event` (src/traceon.rs:597-608): a successful run appends one
complete buffer to the sink; a serializer error is reported on a side channel
(`dbg!`) and the sink is untouched; a panic propagates (modelled `Option.none`). -/
def on_event (cfg : Traceon) (e : EventInput) (sink : List SerializeOut) :
    Option (List SerializeOut) :=
  match serialize cfg e.fuel e.ts e.meta e.fields e.current_span with
  | Except.ok out => Option.some (sink ++ [out])
  | Except.error SerFailure.serde => Option.some sink
  | Except.error SerFailure.panicked => Option.none

/-- A stream of events through `on_event`, threading the sink. -/
def on_events (cfg : Traceon) : List EventInput → List SerializeOut →
    Option (List SerializeOut)
  | [], sink => Option.some sink
  | e :: rest, sink =>
    match on_event cfg e sink with
    | Option.some sink' => on_events cfg rest sink'
    | Option.none => Option.none

/-! ### Helper lemmas about the map model and the casing primitives -/

theorem hashmap_insert_snd (m : List (String × JsonValue)) (k : String) (v : JsonValue) :
    (hashmap_insert m k v).2 = hashmap_get m k := by
  induction m with
  | nil => rfl
  | cons p rest ih =>
    obtain ⟨k', v'⟩ := p
    by_cases h : k' = k
    · simp [hashmap_insert, hashmap_get, h]
    · simp [hashmap_insert, hashmap_get, h, ih]

theorem hashmap_get_insert_self (m : List (String × JsonValue)) (k : String) (v : JsonValue) :
    hashmap_get (hashmap_insert m k v).1 k = Option.some v := by
  induction m with
  | nil => simp [hashmap_insert, hashmap_get]
  | cons p rest ih =>
    obtain ⟨k', v'⟩ := p
    by_cases h : k' = k
    · simp [hashmap_insert, hashmap_get, h]
    · simp [hashmap_insert, hashmap_get, h, ih]

theorem hashmap_insert_absent (m : List (String × JsonValue)) (k : String) (v : JsonValue)
    (h : hashmap_get m k = Option.none) : (hashmap_insert m k v).1 = m ++ [(k, v)] := by
  induction m with
  | nil => rfl
  | cons p rest ih =>
    obtain ⟨k', v'⟩ := p
    by_cases hk : k' = k
    · simp [hashmap_get, hk] at h
    · simp [hashmap_get, hk] at h
      simp [hashmap_insert, hk, ih h]

theorem to_ascii_lowercase_of_not_upper (c : Char) (h : is_uppercase c = false) :
    to_ascii_lowercase c = c := by
  have h' : ¬('A' ≤ c ∧ c ≤ 'Z') := by simpa [is_uppercase] using h
  simp [to_ascii_lowercase, h']

theorem snake_go_id (cs : List Char) (h : ∀ c ∈ cs, is_uppercase c = false) :
    ∀ i b, snake_go cs i b = cs := by
  induction cs with
  | nil => intro i b; rfl
  | cons c rest ih =>
    intro i b
    have hc : is_uppercase c = false := h c (by simp)
    have hrest : ∀ c' ∈ rest, is_uppercase c' = false := fun c' hm => h c' (by simp [hm])
    simp [snake_go, hc, to_ascii_lowercase_of_not_upper c hc, ih hrest]

theorem store_get_insert_self (σ : List (Nat × JsonStorage)) (id : Nat) (st : JsonStorage) :
    store_get (store_insert σ id st) id = Option.some st := by
  induction σ with
  | nil => simp [store_insert, store_get]
  | cons p rest ih =>
    obtain ⟨i, s⟩ := p
    by_cases h : i = id
    · simp [store_insert, store_get, h]
    · simp [store_insert, store_get, h, ih]

theorem store_get_state_record_ne (σ : List (Nat × JsonStorage)) (pid cid : Nat)
    (vals : List FieldInput) (h : cid ≠ pid) :
    store_get (state_record σ pid vals) cid = store_get σ cid := by
  induction σ with
  | nil => rfl
  | cons p rest ih =>
    obtain ⟨i, s⟩ := p
    simp only [state_record, List.map_cons] at ih ⊢
    by_cases hi : i = pid
    · subst hi
      rw [if_pos rfl]
      have hic : ¬(i = cid) := fun hc => h (hc ▸ rfl)
      simp only [store_get, if_neg hic]
      exact ih
    · rw [if_neg hi]
      by_cases hic : i = cid
      · simp only [store_get, if_pos hic]
      · simp only [store_get, if_neg hic]
        exact ih

/-! ### Helper lemmas about the serializer chain -/

theorem except_bind_ok {ε α β : Type} (a : α) (f : α → Except ε β) :
    (Except.ok a : Except ε α).bind f = f a := rfl

theorem map_ser_entry_fuel_none (es : List (String × JsonValue)) (k : String) (v : JsonValue) :
    map_ser_entry ⟨Option.none, es⟩ k v = Except.ok ⟨Option.none, es ++ [(k, v)]⟩ := rfl

theorem map_ser_end_fuel_none (es : List (String × JsonValue)) :
    map_ser_end ⟨Option.none, es⟩ = Except.ok es := rfl

theorem ser_time_fuel_none (cfg : Traceon) (ts : String) (es : List (String × JsonValue)) :
    ∃ es', ser_time cfg ts ⟨Option.none, es⟩ = Except.ok ⟨Option.none, es'⟩ := by
  unfold ser_time
  split
  · split
    · exact ⟨_, rfl⟩
    · exact ⟨es, rfl⟩
  · exact ⟨es, rfl⟩

theorem ser_level_fuel_none (cfg : Traceon) (lvl : Level) (es : List (String × JsonValue)) :
    ∃ es', ser_level cfg lvl ⟨Option.none, es⟩ = Except.ok ⟨Option.none, es'⟩ := by
  unfold ser_level
  split
  · split
    · exact ⟨_, rfl⟩
    · exact ⟨es, rfl⟩
  · split
    · exact ⟨_, rfl⟩
    · exact ⟨es, rfl⟩
  · split
    · exact ⟨_, rfl⟩
    · exact ⟨es, rfl⟩
  · exact ⟨es, rfl⟩

theorem ser_module_fuel_none (cfg : Traceon) (meta : EventMeta)
    (es pf : List (String × JsonValue)) :
    ∃ es' pf', ser_module cfg meta (⟨Option.none, es⟩, pf) =
      Except.ok (⟨Option.none, es'⟩, pf') := by
  unfold ser_module
  split
  · split
    · exact ⟨_, pf, rfl⟩
    · exact ⟨es, _, rfl⟩
  · exact ⟨es, pf, rfl⟩

theorem ser_file_fuel_none (cfg : Traceon) (meta : EventMeta)
    (es pf : List (String × JsonValue)) :
    ∃ es' pf', ser_file cfg meta (⟨Option.none, es⟩, pf) =
      Except.ok (⟨Option.none, es'⟩, pf') := by
  unfold ser_file
  split
  · split
    · exact ⟨_, pf, rfl⟩
    · exact ⟨es, _, rfl⟩
  · exact ⟨es, pf, rfl⟩

theorem ser_header_fuel_none (cfg : Traceon) (ts : String) (meta : EventMeta) :
    ∃ es pf, ser_header cfg Option.none ts meta = Except.ok (⟨Option.none, es⟩, pf) := by
  obtain ⟨es1, h1⟩ := ser_time_fuel_none cfg ts []
  obtain ⟨es2, h2⟩ := ser_level_fuel_none cfg meta.level es1
  obtain ⟨es3, pf3, h3⟩ := ser_module_fuel_none cfg meta es2 []
  obtain ⟨es4, pf4, h4⟩ := ser_file_fuel_none cfg meta es3 pf3
  refine ⟨es4, pf4, ?_⟩
  unfold ser_header
  rw [h1, except_bind_ok, h2, except_bind_ok, h3, except_bind_ok, h4]

theorem subst_key_not_subst (cfg : Traceon) (k : String) :
    subst_key cfg false k = k := by
  simp [subst_key]

theorem ser_fields_loop_json_case_none (cfg : Traceon) (subst : Bool)
    (hj : cfg.json = true) (hc : cfg.case = Case.none) :
    ∀ (kvs es pf : List (String × JsonValue)),
      ser_fields_loop cfg subst kvs ⟨Option.none, es⟩ pf =
        Except.ok (⟨Option.none,
          es ++ kvs.map (fun kv => (subst_key cfg subst kv.1, kv.2))⟩, pf) := by
  intro kvs
  induction kvs with
  | nil => intro es pf; simp [ser_fields_loop]
  | cons kv rest ih =>
    intro es pf
    obtain ⟨k, v⟩ := kv
    simp only [ser_fields_loop, hc, cased_key, hj, if_pos rfl, map_ser_entry_fuel_none]
    rw [ih]
    simp

/-! ### Claims -/

/-- Claim C5 (status: the code panics where the claim asserts totality).
The claim states every casing transform returns a string without error or
panic for every input, including the empty string and strings whose first
character is multi-byte UTF-8. `snake` and `pascal` are total, but `camel`
slices the pascal result at byte index 1 (`pascal[..1]`), which panics when
the pascal result is empty and when its first character is multi-byte;
`Option.none` is the model of that panic. This theorem evaluates `camel` at
both failing inputs. -/
theorem camel_panics_on_empty_or_multibyte :
    camel "" = Option.none ∧ camel "é" = Option.none :=
  ⟨rfl, rfl⟩

/-- Claim C6: `snake "PascalCase" = "pascal_case"`, `pascal "snake_case" =
"SnakeCase"`, `camel "snake_case" = "snakeCase"` (returned, no panic), and
every string with no uppercase letter and no underscore is fixed by `snake`. -/
theorem casing_transform_examples :
    snake "PascalCase" = "pascal_case" ∧
    pascal "snake_case" = "SnakeCase" ∧
    camel "snake_case" = Option.some "snakeCase" ∧
    ∀ s : String, (∀ c ∈ s.data, is_uppercase c = false ∧ c ≠ '_') → snake s = s := by
  refine ⟨by decide, by decide, by decide, ?_⟩
  intro s h
  unfold snake
  rw [snake_go_id s.data (fun c hc => (h c hc).1)]

/-- Witness for `casing_transform_examples`: the no-uppercase, no-underscore
string `"abc"` is fixed by `snake`. -/
theorem casing_transform_examples_w : snake "abc" = "abc" :=
  casing_transform_examples.2.2.2 "abc" (by decide)

/-- Claim C2: a child span entered without explicit fields under a root parent
named `"outer"`, itself entered without fields, stores span-name
`"outer::inner"` under `SpanFormat.join "::"`, `"inner"` under
`SpanFormat.overwrite`, and no field at all under `SpanFormat.none` —
whatever the casing and field-join configuration. -/
theorem child_span_name_policies (cfg : Traceon) :
    (cfg.span_format = SpanFormat.join "::" →
      hashmap_get (on_new_span cfg
          (Option.some (on_new_span cfg Option.none "outer" [])) "inner" []).values
        (span_key_for cfg.case) = Option.some (JsonValue.str "outer::inner")) ∧
    (cfg.span_format = SpanFormat.overwrite →
      hashmap_get (on_new_span cfg
          (Option.some (on_new_span cfg Option.none "outer" [])) "inner" []).values
        (span_key_for cfg.case) = Option.some (JsonValue.str "inner")) ∧
    (cfg.span_format = SpanFormat.none →
      (on_new_span cfg
          (Option.some (on_new_span cfg Option.none "outer" [])) "inner" []).values = []) := by
  obtain ⟨j, f, mo, sf, c, t, jf, lf, mk⟩ := cfg
  refine ⟨?_, ?_, ?_⟩ <;> intro h
  · have h' : sf = SpanFormat.join "::" := h
    subst h'
    cases c <;> rfl
  · have h' : sf = SpanFormat.overwrite := h
    subst h'
    cases c <;> rfl
  · have h' : sf = SpanFormat.none := h
    subst h'
    cases c <;> rfl

/-- A configuration with the default span-name policy `Join("::")`. -/
def cfgJoinW : Traceon :=
  ⟨true, false, false, SpanFormat.join "::", Case.none, TimeFormat.other,
    JoinFields.overwrite, LevelFormat.uppercase, "message"⟩

/-- `cfgJoinW` with the span-name policy `Overwrite`. -/
def cfgOverW : Traceon := { cfgJoinW with span_format := SpanFormat.overwrite }

/-- `cfgJoinW` with the span-name policy `None`. -/
def cfgNoneW : Traceon := { cfgJoinW with span_format := SpanFormat.none }

/-- Witness for `child_span_name_policies` at the three concrete policies. -/
theorem child_span_name_policies_w :
    hashmap_get (on_new_span cfgJoinW
        (Option.some (on_new_span cfgJoinW Option.none "outer" [])) "inner" []).values
      "span" = Option.some (JsonValue.str "outer::inner") ∧
    hashmap_get (on_new_span cfgOverW
        (Option.some (on_new_span cfgOverW Option.none "outer" [])) "inner" []).values
      "span" = Option.some (JsonValue.str "inner") ∧
    (on_new_span cfgNoneW
        (Option.some (on_new_span cfgNoneW Option.none "outer" [])) "inner" []).values = [] :=
  ⟨(child_span_name_policies cfgJoinW).1 rfl,
    (child_span_name_policies cfgOverW).2.1 rfl,
    (child_span_name_policies cfgNoneW).2.2 rfl⟩

/-- Claim C10: in `record_str`, a colliding field whose name equals `"span"`
ignoring ASCII case — whatever the per-field join policy in `st.join_fields` —
is resolved by the span-name format policy: concatenated with the span
separator under `SpanFormat.join`, plain-overwritten under `overwrite` and
`none`. -/
theorem span_named_field_follows_span_format (st : JsonStorage) (name value : String)
    (old : JsonValue) (hname : str_to_ascii_lowercase name = "span")
    (hold : hashmap_get st.values name = Option.some old) :
    (∀ chars, st.span_format = SpanFormat.join chars →
      hashmap_get ((record_str st name value).values) name =
        Option.some (JsonValue.str ((old.as_str.getD "") ++ chars ++ value))) ∧
    (st.span_format = SpanFormat.overwrite →
      hashmap_get ((record_str st name value).values) name =
        Option.some (JsonValue.str value)) ∧
    (st.span_format = SpanFormat.none →
      hashmap_get ((record_str st name value).values) name =
        Option.some (JsonValue.str value)) := by
  rcases hins : hashmap_insert st.values name (JsonValue.str value) with ⟨m, o⟩
  have ho : o = Option.some old := by
    have hsnd := hashmap_insert_snd st.values name (JsonValue.str value)
    rw [hins, hold] at hsnd
    exact hsnd
  subst ho
  have hm : hashmap_get m name = Option.some (JsonValue.str value) := by
    have hfst := hashmap_get_insert_self st.values name (JsonValue.str value)
    rw [hins] at hfst
    exact hfst
  refine ⟨?_, ?_, ?_⟩
  · intro chars hsf
    simp only [record_str, hins, if_pos hname, hsf]
    exact hashmap_get_insert_self m name _
  · intro hsf
    simp only [record_str, hins, if_pos hname, hsf]
    exact hm
  · intro hsf
    simp only [record_str, hins, if_pos hname, hsf]
    exact hm

/-- Storage holding a field literally named `"SPAN"`, under an all-fields join
policy, used to exercise the span-name special case. -/
def stSpanW : JsonStorage :=
  ⟨[("SPAN", JsonValue.str "old")], JoinFields.all "||", SpanFormat.overwrite⟩

/-- Witness for `span_named_field_follows_span_format`: despite
`JoinFields.all "||"`, re-recording the field `"SPAN"` plain-overwrites,
because the span-format policy (`overwrite`) governs it. -/
theorem span_named_field_follows_span_format_w :
    hashmap_get ((record_str stSpanW "SPAN" "B").values) "SPAN" =
      Option.some (JsonValue.str "B") :=
  (span_named_field_follows_span_format stSpanW "SPAN" "B" (JsonValue.str "old")
    (by decide) rfl).2.1 rfl

/-- Claim C3 counterexample: the claim quantifies over every field name, but a
field literally named `"span"` is resolved by the span-format policy instead
of the per-field join policy. With `JoinFields.all "||"` and
`SpanFormat.none` (the builder configuration `join_fields(All("||")).span(SpanFormat::None)`,
under which span storages start without a span-name entry), recording `"A"`
then `"B"` on the field `"span"` stores `"B"`, not the `"A||B"` the claim
requires. -/
theorem rerecord_span_named_field_cex :
    hashmap_get ((record_str (record_str
        (JsonStorage.new (JoinFields.all "||") SpanFormat.none) "span" "A")
        "span" "B").values) "span" = Option.some (JsonValue.str "B") ∧
    JsonValue.str "B" ≠ JsonValue.str "A||B" :=
  ⟨rfl, by decide⟩

/-- Claim C3 as amended: for every field whose name is not `"span"` ignoring
ASCII case, first recording `"A"` then re-recording `"B"` on the same span
stores `"A||B"` under `JoinFields.all "||"` and `"B"` under
`JoinFields.overwrite`; the field `"span"` itself instead follows the
span-format policy (see `span_named_field_follows_span_format`). -/
theorem rerecord_join_policies_nonspan (st : JsonStorage) (name : String)
    (hname : str_to_ascii_lowercase name ≠ "span")
    (habsent : hashmap_get st.values name = Option.none) :
    (st.join_fields = JoinFields.all "||" →
      hashmap_get ((record_fields st
          [FieldInput.str name "A", FieldInput.str name "B"]).values) name =
        Option.some (JsonValue.str "A||B")) ∧
    (st.join_fields = JoinFields.overwrite →
      hashmap_get ((record_fields st
          [FieldInput.str name "A", FieldInput.str name "B"]).values) name =
        Option.some (JsonValue.str "B")) := by
  rcases hins : hashmap_insert st.values name (JsonValue.str "A") with ⟨m1, o1⟩
  have ho1 : o1 = Option.none := by
    have hsnd := hashmap_insert_snd st.values name (JsonValue.str "A")
    rw [hins, habsent] at hsnd
    exact hsnd
  subst ho1
  have hm1 : hashmap_get m1 name = Option.some (JsonValue.str "A") := by
    have hfst := hashmap_get_insert_self st.values name (JsonValue.str "A")
    rw [hins] at hfst
    exact hfst
  rcases hins2 : hashmap_insert m1 name (JsonValue.str "B") with ⟨m2, o2⟩
  have ho2 : o2 = Option.some (JsonValue.str "A") := by
    have hsnd := hashmap_insert_snd m1 name (JsonValue.str "B")
    rw [hins2, hm1] at hsnd
    exact hsnd
  subst ho2
  have hm2 : hashmap_get m2 name = Option.some (JsonValue.str "B") := by
    have hfst := hashmap_get_insert_self m1 name (JsonValue.str "B")
    rw [hins2] at hfst
    exact hfst
  constructor <;> intro hjf <;>
    simp only [record_fields, List.foldl, record_field, record_str, hins,
      if_neg hname, hjf, hins2]
  · have := hashmap_get_insert_self m2 name
      (JsonValue.str (((JsonValue.str "A").as_str.getD "") ++ "||" ++ "B"))
    rw [this]
    decide
  · exact hm2

/-- Witness for `rerecord_join_policies_nonspan` at the field `"field_a"` on
fresh storages with each policy. -/
theorem rerecord_join_policies_nonspan_w :
    hashmap_get ((record_fields (JsonStorage.new (JoinFields.all "||") (SpanFormat.join "::"))
        [FieldInput.str "field_a" "A", FieldInput.str "field_a" "B"]).values) "field_a" =
      Option.some (JsonValue.str "A||B") ∧
    hashmap_get ((record_fields (JsonStorage.new JoinFields.overwrite (SpanFormat.join "::"))
        [FieldInput.str "field_a" "A", FieldInput.str "field_a" "B"]).values) "field_a" =
      Option.some (JsonValue.str "B") :=
  ⟨(rerecord_join_policies_nonspan
      (JsonStorage.new (JoinFields.all "||") (SpanFormat.join "::")) "field_a"
      (by decide) rfl).1 rfl,
    (rerecord_join_policies_nonspan
      (JsonStorage.new JoinFields.overwrite (SpanFormat.join "::")) "field_a"
      (by decide) rfl).2 rfl⟩

/-- Claim C4 counterexample: the claim says that whenever the stored or the
new value is non-string, a Join policy behaves exactly like Overwrite (the new
value replaces the old). But when the stored value is non-string and the new
value is a string, `record_str` under `JoinFields.all "||"` still
concatenates, reading the old value back through `as_str().unwrap_or("")`:
recording `i64 5` then `"B"` on the field `"n"` stores `"||B"`, not `"B"`. -/
theorem join_nonstring_collision_cex :
    hashmap_get ((record_str (record_i64
        (JsonStorage.new (JoinFields.all "||") (SpanFormat.join "::")) "n" 5)
        "n" "B").values) "n" = Option.some (JsonValue.str "||B") ∧
    JsonValue.str "||B" ≠ JsonValue.str "B" :=
  ⟨rfl, by decide⟩

/-- Claim C4 as amended: when the newly recorded value is non-string
(`record_i64` / `record_u64` / `record_f64` / `record_bool`), the new value
plainly replaces any stored value, with no concatenation under any policy;
when the newly recorded value is a string but the stored value is non-string,
a `JoinFields.all` policy still concatenates, treating the old value as the
empty string, so the stored result is the separator followed by the new
value. -/
theorem nonstring_collision_policies (st : JsonStorage) (name : String) :
    (∀ n : Int, hashmap_get ((record_i64 st name n).values) name =
      Option.some (JsonValue.numInt n)) ∧
    (∀ n : Nat, hashmap_get ((record_u64 st name n).values) name =
      Option.some (JsonValue.numUInt n)) ∧
    (∀ bits : Nat, hashmap_get ((record_f64 st name bits).values) name =
      Option.some (JsonValue.numFloat bits)) ∧
    (∀ b : Bool, hashmap_get ((record_bool st name b).values) name =
      Option.some (JsonValue.bool b)) ∧
    (∀ chars value old, str_to_ascii_lowercase name ≠ "span" →
      st.join_fields = JoinFields.all chars →
      hashmap_get st.values name = Option.some old → old.as_str = Option.none →
      hashmap_get ((record_str st name value).values) name =
        Option.some (JsonValue.str ("" ++ chars ++ value))) := by
  refine ⟨?_, ?_, ?_, ?_, ?_⟩
  · intro n
    exact hashmap_get_insert_self st.values name _
  · intro n
    exact hashmap_get_insert_self st.values name _
  · intro bits
    exact hashmap_get_insert_self st.values name _
  · intro b
    exact hashmap_get_insert_self st.values name _
  · intro chars value old hname hjf hold hstr
    rcases hins : hashmap_insert st.values name (JsonValue.str value) with ⟨m, o⟩
    have ho : o = Option.some old := by
      have hsnd := hashmap_insert_snd st.values name (JsonValue.str value)
      rw [hins, hold] at hsnd
      exact hsnd
    subst ho
    simp only [record_str, hins, if_neg hname, hjf, hstr, Option.getD]
    exact hashmap_get_insert_self m name _

/-- Storage already holding the non-string value `i64 5` under `"n"`, with an
all-fields join policy. -/
def stNonStrW : JsonStorage :=
  ⟨[("n", JsonValue.numInt 5)], JoinFields.all "||", SpanFormat.join "::"⟩

/-- Witness for `nonstring_collision_policies`: a non-string re-record plainly
overwrites, and a string recorded over the stored `i64 5` yields `"||B"`. -/
theorem nonstring_collision_policies_w :
    hashmap_get ((record_i64 stNonStrW "n" 7).values) "n" =
      Option.some (JsonValue.numInt 7) ∧
    hashmap_get ((record_str stNonStrW "n" "B").values) "n" =
      Option.some (JsonValue.str "||B") :=
  ⟨(nonstring_collision_policies stNonStrW "n").1 7,
    (nonstring_collision_policies stNonStrW "n").2.2.2.2 "||" "B" (JsonValue.numInt 5)
      (by decide) rfl rfl rfl⟩

/-- Claim C8 counterexample: the claim asserts the reserved-marker handling
for *every* typed visitation, but it lives only in `record_debug`. The typed
paths store the unmodified name: `record_i64` stores a field named `"log.x"`,
and `record_str` keeps `"r#k"` unstripped. -/
theorem typed_visit_reserved_markers_cex :
    hashmap_get ((record_i64 JsonStorage.defaultStorage "log.x" 1).values) "log.x" =
      Option.some (JsonValue.numInt 1) ∧
    hashmap_get ((record_str JsonStorage.defaultStorage "r#k" "v").values) "r#k" =
      Option.some (JsonValue.str "v") ∧
    hashmap_get ((record_str JsonStorage.defaultStorage "r#k" "v").values) "k" =
      Option.none :=
  ⟨rfl, rfl, rfl⟩

/-- Claim C8 as amended: the reserved-marker handling applies only in the
debug-formatted visitation: there, a name starting with `"log."` is dropped
entirely, a name starting with `"r#"` is stored with the first two characters
stripped, and any other name is stored as-is; the typed visitations
(`record_i64` shown for the non-string shapes, `record_str` for strings)
store under the unmodified name. -/
theorem reserved_markers_only_in_record_debug (st : JsonStorage) (name txt : String) :
    (starts_with name "log." = true → record_debug st name txt = st) ∧
    (starts_with name "log." = false → starts_with name "r#" = true →
      (record_debug st name txt).values =
        (hashmap_insert st.values ⟨name.data.drop 2⟩ (JsonValue.str txt)).1) ∧
    (starts_with name "log." = false → starts_with name "r#" = false →
      (record_debug st name txt).values =
        (hashmap_insert st.values name (JsonValue.str txt)).1) ∧
    (∀ n : Int, hashmap_get ((record_i64 st name n).values) name =
      Option.some (JsonValue.numInt n)) ∧
    (∀ value : String,
      (hashmap_get ((record_str st name value).values) name).isSome = true) := by
  refine ⟨?_, ?_, ?_, ?_, ?_⟩
  · intro h1
    simp [record_debug, h1]
  · intro h1 h2
    simp [record_debug, h1, h2]
  · intro h1 h2
    simp [record_debug, h1, h2]
  · intro n
    exact hashmap_get_insert_self st.values name _
  · intro value
    rcases hins : hashmap_insert st.values name (JsonValue.str value) with ⟨m, o⟩
    have hm : hashmap_get m name = Option.some (JsonValue.str value) := by
      have hfst := hashmap_get_insert_self st.values name (JsonValue.str value)
      rw [hins] at hfst
      exact hfst
    cases o with
    | none => simp [record_str, hins, hm]
    | some orig =>
      by_cases hs : str_to_ascii_lowercase name = "span"
      · rcases hsf : st.span_format with _ | chars | _ <;>
          simp [record_str, hins, if_pos hs, hsf, hm, hashmap_get_insert_self]
      · rcases hjf : st.join_fields with _ | chars | ⟨chars, fields⟩
        · simp [record_str, hins, if_neg hs, hjf, hm]
        · simp [record_str, hins, if_neg hs, hjf, hashmap_get_insert_self]
        · by_cases hmem : name ∈ fields <;>
            simp [record_str, hins, if_neg hs, hjf, hmem, hm, hashmap_get_insert_self]

/-- Witness for `reserved_markers_only_in_record_debug` at the marker-bearing
names `"log.x"` and `"r#k"` and the plain name `"k"`. -/
theorem reserved_markers_only_in_record_debug_w :
    record_debug JsonStorage.defaultStorage "log.x" "1" = JsonStorage.defaultStorage ∧
    (record_debug JsonStorage.defaultStorage "r#k" "v").values =
      (hashmap_insert JsonStorage.defaultStorage.values ⟨"r#k".data.drop 2⟩
        (JsonValue.str "v")).1 ∧
    hashmap_get ((record_i64 JsonStorage.defaultStorage "log.x" 1).values) "log.x" =
      Option.some (JsonValue.numInt 1) ∧
    (hashmap_get ((record_str JsonStorage.defaultStorage "k" "v").values) "k").isSome = true :=
  ⟨(reserved_markers_only_in_record_debug JsonStorage.defaultStorage "log.x" "1").1 (by decide),
    (reserved_markers_only_in_record_debug JsonStorage.defaultStorage "r#k" "v").2.1
      (by decide) (by decide),
    (reserved_markers_only_in_record_debug JsonStorage.defaultStorage "log.x" "1").2.2.2.1 1,
    (reserved_markers_only_in_record_debug JsonStorage.defaultStorage "k" "v").2.2.2.2 "v"⟩

/-- Records on a fixed span id leave every other slot of the table untouched. -/
theorem store_get_foldl_records_ne (pid cid : Nat) (h : cid ≠ pid) :
    ∀ (recs : List (List FieldInput)) (σ : List (Nat × JsonStorage)),
      store_get (recs.foldl (fun σ' vals => state_record σ' pid vals) σ) cid =
        store_get σ cid := by
  intro recs
  induction recs with
  | nil => intro σ; rfl
  | cons r rest ih =>
    intro σ
    rw [List.foldl_cons, ih, store_get_state_record_ne σ pid cid r h]

/-- Claim C7: span storage inheritance is a snapshot. After the child's
storage is created from the parent's storage at span-creation time, any
sequence of later `on_record` mutations of the parent leaves the child's
attached storage exactly the clone-plus-own-fields value computed at creation
time. -/
theorem child_storage_snapshot (cfg : Traceon) (σ : List (Nat × JsonStorage))
    (pid cid : Nat) (name : String) (attrs : List FieldInput)
    (recs : List (List FieldInput)) (h : cid ≠ pid) :
    store_get (recs.foldl (fun σ' vals => state_record σ' pid vals)
        (state_new_span cfg σ cid (Option.some pid) name attrs)) cid =
      Option.some (on_new_span cfg
        (Option.some ((store_get σ pid).getD JsonStorage.defaultStorage)) name attrs) := by
  rw [store_get_foldl_records_ne pid cid h recs]
  exact store_get_insert_self σ cid _

/-- A parent storage holding the field `"p"` for the snapshot witness. -/
def snapParentW : JsonStorage :=
  ⟨[("p", JsonValue.str "P"), ("span", JsonValue.str "root")],
    JoinFields.overwrite, SpanFormat.join "::"⟩

/-- Witness for `child_storage_snapshot`: with the parent at slot 0 and the
child at slot 1, recording a new field on the parent after the child's
creation leaves the child's stored snapshot unchanged. -/
theorem child_storage_snapshot_w :
    store_get ([[FieldInput.str "p" "CHANGED"]].foldl
        (fun σ' vals => state_record σ' 0 vals)
        (state_new_span cfgJoinW [(0, snapParentW)] 1 (Option.some 0) "child" [])) 1 =
      Option.some (on_new_span cfgJoinW
        (Option.some ((store_get [(0, snapParentW)] 0).getD JsonStorage.defaultStorage))
        "child" []) :=
  child_storage_snapshot cfgJoinW [(0, snapParentW)] 0 1 "child" []
    [[FieldInput.str "p" "CHANGED"]] (by decide)

/-- Claim C9: when `serialize` for one event returns the serializer-error
result, `on_event` leaves the sink exactly as it was (no partial or malformed
record is written — all serialization buffers are local to the run) and
returns normally (the error is reported on a side channel, `dbg!`, not
propagated), and the stream continues: processing the remaining events from
the same sink state. -/
theorem serialization_error_abandons_single_event (cfg : Traceon) (e : EventInput)
    (sink : List SerializeOut) (rest : List EventInput)
    (h : serialize cfg e.fuel e.ts e.meta e.fields e.current_span =
      Except.error SerFailure.serde) :
    on_event cfg e sink = Option.some sink ∧
    on_events cfg (e :: rest) sink = on_events cfg rest sink := by
  have h1 : on_event cfg e sink = Option.some sink := by
    unfold on_event
    rw [h]
  exact ⟨h1, by simp [on_events, h1]⟩

/-- Metadata of an info-level event with no module or file annotation. -/
def metaW : EventMeta := ⟨Level.info, Option.none, Option.none, Option.none⟩

/-- An event whose serializer run fails at the first write (fuel 0). -/
def failingEventW : EventInput :=
  ⟨Option.some 0, "2023-01-01T00:00:00Z", metaW, [FieldInput.str "a" "1"], Option.none⟩

/-- Witness for `serialization_error_abandons_single_event`: under the JSON
configuration `cfgJoinW`, the fuel-0 event aborts with a serializer error,
the sink stays empty and the stream is unchanged. -/
theorem serialization_error_abandons_single_event_w :
    on_event cfgJoinW failingEventW [] = Option.some [] ∧
    on_events cfgJoinW [failingEventW] [] = on_events cfgJoinW [] [] :=
  serialization_error_abandons_single_event cfgJoinW failingEventW [] [] rfl

/-- The JSON-mode configuration of the collision counterexample: identity
casing, no timestamp, no level, no module/file annotation. -/
def cfgC1 : Traceon :=
  ⟨true, false, false, SpanFormat.join "::", Case.none, TimeFormat.none,
    JoinFields.overwrite, LevelFormat.none, "message"⟩

/-- An active span storing both a field `"a"` and the span name. -/
def spanC1 : JsonStorage :=
  ⟨[("a", JsonValue.str "2"), ("span", JsonValue.str "outer")],
    JoinFields.overwrite, SpanFormat.join "::"⟩

/-- Claim C1 counterexample: the claim says a span-storage field whose key was
already emitted is skipped. With the event field `a = "1"` and the span
storage holding `a = "2"`, the serialized record contains the key `"a"`
twice — the event entry first, the span entry emitted again after it — so
nothing is skipped (and, read with last-key-wins JSON semantics, the span
value, not the event value, wins). -/
theorem event_span_collision_not_skipped_cex :
    serialize cfgC1 Option.none "" metaW [FieldInput.str "a" "1"]
        (Option.some spanC1) =
      Except.ok ⟨[("a", JsonValue.str "1"), ("a", JsonValue.str "2"),
        ("span", JsonValue.str "outer")], []⟩ ∧
    (serialize cfgC1 Option.none "" metaW [FieldInput.str "a" "1"]
        (Option.some spanC1)).map
      (fun o => (o.jsonEntries.filter (fun kv => kv.1 == "a")).length) = Except.ok 2 :=
  ⟨rfl, rfl⟩

/-- Claim C1 as amended: in JSON mode (shown under identity casing, with an
infallible serializer), the record assembler emits the active span's stored
fields *in addition to* everything emitted before them, with no
deduplication: the output for an event under a span equals the output for the
same event without a span, followed by every span-storage pair verbatim.
A key already emitted by a higher-priority source is therefore emitted again,
not skipped, and the span-name field receives no special treatment here. -/
theorem span_fields_reemitted (cfg : Traceon) (ts : String) (meta : EventMeta)
    (evs : List FieldInput) (sp : JsonStorage)
    (hj : cfg.json = true) (hc : cfg.case = Case.none) :
    serialize cfg Option.none ts meta evs (Option.some sp) =
      (serialize cfg Option.none ts meta evs Option.none).map
        (fun o => ⟨o.jsonEntries ++ sp.values, o.prettyFields⟩) := by
  obtain ⟨es, pf, hH⟩ := ser_header_fuel_none cfg ts meta
  simp only [serialize, hH, except_bind_ok,
    ser_fields_loop_json_case_none cfg true hj hc,
    ser_fields_loop_json_case_none cfg false hj hc,
    map_ser_end_fuel_none, Except.map]
  simp [subst_key_not_subst, List.append_assoc]

/-- Witness for `span_fields_reemitted` at the counterexample inputs. -/
theorem span_fields_reemitted_w :
    serialize cfgC1 Option.none "" metaW [FieldInput.str "a" "1"]
        (Option.some spanC1) =
      (serialize cfgC1 Option.none "" metaW [FieldInput.str "a" "1"] Option.none).map
        (fun o => ⟨o.jsonEntries ++ spanC1.values, o.prettyFields⟩) :=
  span_fields_reemitted cfgC1 "" metaW [FieldInput.str "a" "1"] spanC1 rfl rfl

end TraceonModel
